import Mathlib

/-!
Verification development for the `dispatcher` repository, centred on the
thread-safe `TaskQueue` (src: TaskQueue.h / TaskQueue.cpp) and the
promise/future path of `ThreadedDispatchQueue::sync`
(src: ThreadedDispatchQueue.cpp).

The embedding is sequential: each public operation is a pure function on an
explicit `TaskQueue` state.  Condition-variable waits are resolved with their
deterministic single-threaded semantics (no other thread mutates the state
during a call, no spurious wakeups): a wait whose predicate cannot become true
before the absolute deadline times out at the deadline, and a wait on a head
task whose `executeTime` lies strictly before the deadline wakes at
`executeTime`, at which point the task is ready.  Logical time is a natural
number standing for the monotonic clock.  Callables (`std::function<void()>`)
are abstract labels: `none` is the default-constructed empty function, `some k`
a user callable.  `size_t` counters are `Nat`; overflow never matters on the
operation sequences considered here, except for the decrement of
`currentRunningTasks_`, where the state machine pairs each decrement with a
preceding increment exactly as real executions do.
-/

namespace Dispatcher

/-- Model of `DispatchFunction = std::function<void()>`: an abstract callable
label; `none` is the empty (default-constructed) function. -/
abbrev DispatchFunction := Option Nat

/-- Listener callbacks of `IQueueListener`. -/
inductive QEvent where
  | nonEmpty
  | qEmpty
deriving DecidableEq

/-- Model of `TaskQueue::Task` (TaskQueue.h): id, callable, execute time,
barrier flag. -/
structure Task where
  id : Nat
  function : DispatchFunction
  executeTime : Nat
  isBarrier : Bool
deriving DecidableEq

/-- Model of the `TaskQueue` state (fields of TaskQueue.h with their default
values).  `listener` records whether a listener is registered
(`listener_ != nullptr`). -/
structure TaskQueue where
  disposed : Bool := false
  taskIdCounter : Nat := 0
  tasks : List Task := []
  empty : Bool := true
  first : Bool := true
  currentRunningTasks : Nat := 0
  maxConcurrentTasks : Nat := 1
  listener : Bool := false
deriving DecidableEq

/-- The freshly constructed queue (`TaskQueue::TaskQueue`). -/
def initialQueue : TaskQueue := {}

/-- The comparator passed to `std::upper_bound` in `TaskQueue::insertTask`:
equal execute times compare by id, otherwise by execute time. -/
def taskLtB (a b : Task) : Bool :=
  if a.executeTime = b.executeTime then decide (a.id < b.id)
  else decide (a.executeTime < b.executeTime)

/-- The strict lexicographic order on `(executeTime, id)` underlying the
ordering invariant. -/
def taskKeyLt (a b : Task) : Prop :=
  a.executeTime < b.executeTime ∨
    (a.executeTime = b.executeTime ∧ a.id < b.id)

instance (a b : Task) : Decidable (taskKeyLt a b) := by
  unfold taskKeyLt; infer_instance

/-- Insertion at the `std::upper_bound` position: before the first element `e`
with `taskLtB n e`.  On a list sorted by `taskKeyLt` this linear scan reaches
exactly the boundary the binary search of `std::upper_bound` returns. -/
def insertUB (n : Task) : List Task → List Task
  | [] => [n]
  | e :: es => if taskLtB n e then n :: e :: es else e :: insertUB n es

/-- Result of `TaskQueue::enqueue`: the `EnqueuedTask` struct. -/
structure EnqueuedTask where
  id : Nat := 0
  isFirst : Bool := false
deriving DecidableEq

/-- Model of `TaskQueue::insertTask`: bump the id counter, build the task,
insert at the upper-bound position; returns the new id with the new state. -/
def insertTask (q : TaskQueue) (function : DispatchFunction)
    (executeTime : Nat) (isBarrier : Bool) : Nat × TaskQueue :=
  let id := q.taskIdCounter + 1
  (id, { q with taskIdCounter := id,
                tasks := insertUB ⟨id, function, executeTime, isBarrier⟩ q.tasks })

/-- Result of an enqueue: the returned `EnqueuedTask`, the post state, and the
listener callbacks fired during the call, in order. -/
structure EnqueueResult where
  enq : EnqueuedTask
  state : TaskQueue
  events : List QEvent
deriving DecidableEq

/-- Model of `TaskQueue::enqueue(function, executeTime)`: rejected when
disposed, otherwise insert, capture/clear `first_`, and fire
`onQueueNonEmpty` on the empty-to-nonempty edge. -/
def enqueue (q : TaskQueue) (function : DispatchFunction)
    (executeTime : Nat) : EnqueueResult :=
  if q.disposed then ⟨⟨0, false⟩, q, []⟩
  else
    let (id, q1) := insertTask q function executeTime false
    let isF := q1.first
    let q2 := { q1 with first := false }
    if q2.empty then
      ⟨⟨id, isF⟩, { q2 with empty := false },
        if q2.listener then [QEvent.nonEmpty] else []⟩
    else ⟨⟨id, isF⟩, q2, []⟩

/-- Model of `TaskQueue::lockFreeRemoveTask`: linear scan, erase the first
entry with a matching id and hand back its callable. -/
def lockFreeRemoveTask (taskId : Nat) : List Task → DispatchFunction × List Task
  | [] => (none, [])
  | t :: ts =>
      if t.id = taskId then (t.function, ts)
      else
        let r := lockFreeRemoveTask taskId ts
        (r.1, t :: r.2)

/-- Model of `TaskQueue::cancel`: remove the task if present; the extracted
callable is destroyed after the lock is dropped; no listener callback. -/
def cancel (q : TaskQueue) (taskId : Nat) : TaskQueue :=
  { q with tasks := (lockFreeRemoveTask taskId q.tasks).2 }

/-- Model of `TaskQueue::dispose`: first call marks disposed and clears the
task list; later calls are no-ops. -/
def dispose (q : TaskQueue) : TaskQueue :=
  if q.disposed then q else { q with disposed := true, tasks := [] }

/-- Model of `TaskQueue::setMaxConcurrentTasks`. -/
def setMaxConcurrentTasks (q : TaskQueue) (n : Nat) : TaskQueue :=
  if q.maxConcurrentTasks = n then q else { q with maxConcurrentTasks := n }

/-- Result of `TaskQueue::nextTask`: the callable moved out (empty when
nothing runs), the `*shouldRun` output, the logical time at which the popped
task is handed to the caller (a model-level ghost), the post state, and the
listener callbacks fired. -/
structure NextTaskResult where
  function : DispatchFunction
  shouldRun : Bool
  runTime : Nat
  state : TaskQueue
  events : List QEvent
deriving DecidableEq

/-- Model of `TaskQueue::nextTask(maxTime, shouldRun)` under the sequential
semantics described in the header comment.  `now` is the clock at entry.  The
wait loop resolves as follows: disposed exits at once; an empty list fires the
empty edge (if listener set and flag clear) and times out; a saturated running
count or a barrier head times out; a head with `executeTime` at or beyond
`maxTime` (and after `now`) times out; otherwise the head is popped — at `now`
if already ready, else at its `executeTime` (which is then before
`maxTime`). -/
def nextTask (q : TaskQueue) (now maxTime : Nat) : NextTaskResult :=
  if q.disposed then ⟨none, false, now, q, []⟩
  else
    match q.tasks with
    | [] =>
        if q.empty then ⟨none, false, now, q, []⟩
        else
          ⟨none, false, now, { q with empty := true },
            if q.listener then [QEvent.qEmpty] else []⟩
    | t :: rest =>
        if q.maxConcurrentTasks ≤ q.currentRunningTasks then
          ⟨none, false, now, q, []⟩
        else if t.isBarrier then ⟨none, false, now, q, []⟩
        else if t.executeTime ≤ now ∨ t.executeTime < maxTime then
          ⟨t.function, true, max now t.executeTime,
            { q with tasks := rest,
                     currentRunningTasks := q.currentRunningTasks + 1 },
            []⟩
        else ⟨none, false, now, q, []⟩

/-- Result of `TaskQueue::runNextTask`: whether a task ran, the callable that
was invoked (if any), the invocation time, post state and events. -/
structure RunResult where
  ran : Bool
  executed : Option DispatchFunction
  runTime : Nat
  state : TaskQueue
  events : List QEvent
deriving DecidableEq

/-- Model of `TaskQueue::runNextTask(maxTime)`: take the next task; when one
was handed out, invoke it outside the lock, destroy it, then decrement the
running count. -/
def runNextTask (q : TaskQueue) (now maxTime : Nat) : RunResult :=
  let r := nextTask q now maxTime
  if r.shouldRun then
    { ran := true, executed := some r.function, runTime := r.runTime,
      state := { r.state with
                   currentRunningTasks := r.state.currentRunningTasks - 1 },
      events := r.events }
  else
    { ran := false, executed := none, runTime := r.runTime,
      state := r.state, events := r.events }

/-- Outcome of `TaskQueue::barrier`: the id of the inserted barrier task,
`some f` when the caller's callable `f` was invoked (with the post state), or
`none` when the wait condition does not hold — in the sequential model no
other thread can make it hold, so the caller stays blocked on the state after
insertion. -/
structure BarrierResult where
  insertedId : Nat
  invoked : Option DispatchFunction
  state : TaskQueue
deriving DecidableEq

/-- Model of `TaskQueue::barrier`: insert a barrier task at `now`, then, when
no task is running and the inserted task is the head, increment the running
count, invoke the callable outside the lock, remove the barrier entry and
decrement.  The disposed flag is never consulted. -/
def barrier (q : TaskQueue) (function : DispatchFunction) (now : Nat) :
    BarrierResult :=
  let p := insertTask q none now true
  match p.2.tasks with
  | [] => ⟨p.1, none, p.2⟩
  | t :: _ =>
      if p.2.currentRunningTasks = 0 ∧ t.id = p.1 then
        let q2 := { p.2 with
                      currentRunningTasks := p.2.currentRunningTasks + 1 }
        let q3 := { q2 with
                      tasks := (lockFreeRemoveTask p.1 q2.tasks).2,
                      currentRunningTasks := q2.currentRunningTasks - 1 }
        ⟨p.1, some function, q3⟩
      else ⟨p.1, none, p.2⟩

/-- Model of `TaskQueue::sync`: delegates to `barrier`. -/
def TaskQueue.sync (q : TaskQueue) (function : DispatchFunction) (now : Nat) :
    BarrierResult :=
  barrier q function now

/-- When `runNextTask` reports that a task ran, the task list shrank: the head
was popped. -/
theorem runNextTask_ran_tasks_lt (q : TaskQueue) (now maxTime : Nat)
    (h : (runNextTask q now maxTime).ran = true) :
    (runNextTask q now maxTime).state.tasks.length < q.tasks.length := by
  unfold runNextTask nextTask at *
  cases hd : q.disposed with
  | true => simp [hd] at h
  | false =>
    cases hts : q.tasks with
    | nil =>
        cases he : q.empty <;> simp [hd, hts, he] at h
    | cons t rest =>
        by_cases hc : q.maxConcurrentTasks ≤ q.currentRunningTasks
        · simp [hd, hts, hc] at h
        · cases hb : t.isBarrier with
          | true => simp [hd, hts, hc, hb] at h
          | false =>
            by_cases hr : t.executeTime ≤ now ∨ t.executeTime < maxTime
            · simp [hd, hts, hc, hb, hr]
            · simp [hd, hts, hc, hb, hr] at h

/-- Model of `TaskQueue::flush`: run `runNextTask()` — whose deadline is the
clock value at the call — until it returns false, counting executed tasks.
Tasks are instantaneous in this model, so the re-evaluated clock stays `now`;
the result lists the invoked callables in order. -/
def flush (q : TaskQueue) (now : Nat) :
    Nat × TaskQueue × List DispatchFunction :=
  if h : (runNextTask q now now).ran = true then
    let rest := flush (runNextTask q now now).state now
    (rest.1 + 1, rest.2.1,
      ((runNextTask q now now).executed.getD none) :: rest.2.2)
  else (0, (runNextTask q now now).state, [])
termination_by q.tasks.length
decreasing_by exact runNextTask_ran_tasks_lt q now now h

/-!
The operation alphabet of the Task Store, phrased as a state machine so that
invariants can be stated over every interleaving point, including the instants
while a callable is running.  A `step` (`runNextTask`) decomposes into
`acquireOp` (the `nextTask` pop, which increments the running count) followed
by `completeOp` (the decrement after the callable returns); `barrier`
decomposes into `barrierInsertOp`, `barrierAcquireOp` (the wait-loop exit that
increments the running count) and `barrierFinishOp` (removal of the barrier
entry plus the decrement).
-/

/-- Operations of the Task Store state machine. -/
inductive Op where
  | enqueueOp (function : DispatchFunction) (executeTime : Nat)
  | cancelOp (taskId : Nat)
  | acquireOp (now maxTime : Nat)
  | completeOp
  | barrierInsertOp (now : Nat)
  | barrierAcquireOp (taskId : Nat)
  | barrierFinishOp (taskId : Nat)
  | disposeOp
  | setMaxOp (n : Nat)
  | setListenerOp (b : Bool)
deriving DecidableEq

/-- Apply one operation, collecting the listener callbacks it fires. -/
def applyOpE (q : TaskQueue) : Op → TaskQueue × List QEvent
  | .enqueueOp f t => ((enqueue q f t).state, (enqueue q f t).events)
  | .cancelOp tid => (cancel q tid, [])
  | .acquireOp now maxTime =>
      ((nextTask q now maxTime).state, (nextTask q now maxTime).events)
  | .completeOp =>
      ({ q with currentRunningTasks := q.currentRunningTasks - 1 }, [])
  | .barrierInsertOp now => ((insertTask q none now true).2, [])
  | .barrierAcquireOp tid =>
      (match q.tasks with
       | [] => q
       | t :: _ =>
           if q.currentRunningTasks = 0 ∧ t.id = tid then
             { q with currentRunningTasks := q.currentRunningTasks + 1 }
           else q, [])
  | .barrierFinishOp tid =>
      ({ q with tasks := (lockFreeRemoveTask tid q.tasks).2,
                currentRunningTasks := q.currentRunningTasks - 1 }, [])
  | .disposeOp => (dispose q, [])
  | .setMaxOp n => (setMaxConcurrentTasks q n, [])
  | .setListenerOp b => ({ q with listener := b }, [])

/-- Apply one operation, state only. -/
def applyOp (q : TaskQueue) (op : Op) : TaskQueue := (applyOpE q op).1

/-- Apply a sequence of operations. -/
def applyOps (q : TaskQueue) : List Op → TaskQueue
  | [] => q
  | op :: ops => applyOps (applyOp q op) ops

/-- Listener callbacks fired along a sequence of operations, in order. -/
def traceOf (q : TaskQueue) : List Op → List QEvent
  | [] => []
  | op :: ops => (applyOpE q op).2 ++ traceOf (applyOp q op) ops

/-- True for operations that do not replace the listener. -/
def keepsListener : Op → Bool
  | .setListenerOp _ => false
  | _ => true

/-- Alternation of an event trace: with the empty flag set the next callback
must be `onQueueNonEmpty`, with it clear the next must be `onQueueEmpty`. -/
def alternatesFrom : Bool → List QEvent → Bool
  | _, [] => true
  | true, QEvent.nonEmpty :: rest => alternatesFrom false rest
  | true, QEvent.qEmpty :: _ => false
  | false, QEvent.qEmpty :: rest => alternatesFrom true rest
  | false, QEvent.nonEmpty :: _ => false

/-- The comparator agrees with the strict `(executeTime, id)` order. -/
theorem taskLtB_eq_true_iff (a b : Task) : taskLtB a b = true ↔ taskKeyLt a b := by
  unfold taskLtB taskKeyLt
  by_cases h : a.executeTime = b.executeTime <;> simp [h]

/-- Transitivity of the `(executeTime, id)` order. -/
theorem taskKeyLt_trans {a b c : Task} (h1 : taskKeyLt a b)
    (h2 : taskKeyLt b c) : taskKeyLt a c := by
  rcases h1 with h1 | ⟨e1, i1⟩ <;> rcases h2 with h2 | ⟨e2, i2⟩
  · exact Or.inl (lt_trans h1 h2)
  · exact Or.inl (e2 ▸ h1)
  · exact Or.inl (e1 ▸ h2)
  · exact Or.inr ⟨e1.trans e2, lt_trans i1 i2⟩

/-- A task the comparator does not place the new task before is itself below
the new task, provided its id is older. -/
theorem keyLt_of_not_ltB {n e : Task} (hb : taskLtB n e = false)
    (hid : e.id < n.id) : taskKeyLt e n := by
  unfold taskLtB at hb
  by_cases h : n.executeTime = e.executeTime
  · exact Or.inr ⟨h.symm, hid⟩
  · rw [if_neg h] at hb
    have hnlt : ¬ n.executeTime < e.executeTime := by simpa using hb
    exact Or.inl (lt_of_le_of_ne (le_of_not_lt hnlt) (fun hh => h hh.symm))

/-- Membership after an upper-bound insertion. -/
theorem mem_insertUB (x n : Task) :
    ∀ l : List Task, x ∈ insertUB n l ↔ x = n ∨ x ∈ l
  | [] => by simp [insertUB]
  | e :: es => by
      cases hb : taskLtB n e with
      | false =>
          simp only [insertUB, hb, Bool.false_eq_true, if_false,
            List.mem_cons, mem_insertUB x n es]
          tauto
      | true =>
          simp [insertUB, hb, List.mem_cons]

/-- Upper-bound insertion is a permutation of consing. -/
theorem insertUB_perm (n : Task) :
    ∀ l : List Task, List.Perm (insertUB n l) (n :: l)
  | [] => by simp [insertUB]
  | e :: es => by
      cases hb : taskLtB n e
      · simp only [insertUB, hb, Bool.false_eq_true, if_false]
        exact ((insertUB_perm n es).cons e).trans (List.Perm.swap n e es)
      · simp [insertUB, hb]

/-- Upper-bound insertion of a task with a fresh (strictly larger) id
preserves sortedness by `(executeTime, id)`. -/
theorem insertUB_pairwise (n : Task) :
    ∀ l : List Task, l.Pairwise taskKeyLt → (∀ e ∈ l, e.id < n.id) →
      (insertUB n l).Pairwise taskKeyLt
  | [], _, _ => by simp [insertUB]
  | e :: es, hp, hf => by
      rw [List.pairwise_cons] at hp
      obtain ⟨he, hes⟩ := hp
      cases hb : taskLtB n e
      · simp only [insertUB, hb, Bool.false_eq_true, if_false]
        rw [List.pairwise_cons]
        refine ⟨fun x hx => ?_, ?_⟩
        · rcases (mem_insertUB x n es).1 hx with rfl | hxm
          · exact keyLt_of_not_ltB hb (hf e (List.mem_cons_self e es))
          · exact he x hxm
        · exact insertUB_pairwise n es hes
            (fun x hx => hf x (List.mem_cons_of_mem e hx))
      · simp only [insertUB, hb, if_true]
        rw [List.pairwise_cons]
        refine ⟨fun x hx => ?_, List.pairwise_cons.2 ⟨he, hes⟩⟩
        rcases List.mem_cons.1 hx with rfl | hxm
        · exact (taskLtB_eq_true_iff n x).1 hb
        · exact taskKeyLt_trans ((taskLtB_eq_true_iff n e).1 hb) (he x hxm)

/-- Decomposition of an upper-bound insertion: the list splits at the
insertion point, with the comparator false on every earlier element and true
on the head of the suffix. -/
theorem insertUB_decomp (n : Task) :
    ∀ l : List Task, ∃ l₁ l₂, l = l₁ ++ l₂ ∧ insertUB n l = l₁ ++ n :: l₂ ∧
      (∀ e ∈ l₁, taskLtB n e = false) ∧
      (∀ e, l₂.head? = some e → taskLtB n e = true)
  | [] => ⟨[], [], rfl, rfl, by simp, by simp⟩
  | e :: es => by
      cases hb : taskLtB n e
      · obtain ⟨l₁, l₂, h1, h2, h3, h4⟩ := insertUB_decomp n es
        refine ⟨e :: l₁, l₂, by simp [h1], by simp [insertUB, hb, h2],
          fun x hx => ?_, h4⟩
        rcases List.mem_cons.1 hx with rfl | hxm
        exacts [hb, h3 x hxm]
      · exact ⟨[], e :: es, rfl, by simp [insertUB, hb], by simp,
          fun x hx => by
            rw [List.head?_cons, Option.some.injEq] at hx
            exact hx ▸ hb⟩

/-- Removal produces a sublist. -/
theorem removeTask_sublist (tid : Nat) :
    ∀ l : List Task, ((lockFreeRemoveTask tid l).2).Sublist l
  | [] => List.Sublist.refl []
  | t :: ts => by
      by_cases h : t.id = tid
      · simp only [lockFreeRemoveTask, if_pos h]
        exact List.sublist_cons_self t ts
      · simpa [lockFreeRemoveTask, h] using
          (removeTask_sublist tid ts).cons₂ t

/-- Removing an id absent from the list is the identity. -/
theorem removeTask_not_mem (tid : Nat) :
    ∀ l : List Task, (∀ t ∈ l, t.id ≠ tid) →
      lockFreeRemoveTask tid l = (none, l)
  | [], _ => rfl
  | t :: ts, h => by
      have ht := h t (List.mem_cons_self t ts)
      simp only [lockFreeRemoveTask, if_neg ht]
      rw [removeTask_not_mem tid ts (fun x hx => h x (List.mem_cons_of_mem t hx))]

/-- When a matching task is present, removal erases exactly the first match. -/
theorem removeTask_decomp (tid : Nat) :
    ∀ l : List Task, (∃ t ∈ l, t.id = tid) →
      ∃ l₁ t l₂, l = l₁ ++ t :: l₂ ∧ t.id = tid ∧
        (lockFreeRemoveTask tid l).2 = l₁ ++ l₂ ∧
        (lockFreeRemoveTask tid l).1 = t.function
  | [], h => by simp at h
  | t :: ts, h => by
      by_cases ht : t.id = tid
      · exact ⟨[], t, ts, rfl, ht, by simp [lockFreeRemoveTask, ht],
          by simp [lockFreeRemoveTask, ht]⟩
      · have hts : ∃ t' ∈ ts, t'.id = tid := by
          obtain ⟨t', ht', hid⟩ := h
          rcases List.mem_cons.1 ht' with rfl | hm
          · exact absurd hid ht
          · exact ⟨t', hm, hid⟩
        obtain ⟨l₁, t', l₂, h1, h2, h3, h4⟩ := removeTask_decomp tid ts hts
        exact ⟨t :: l₁, t', l₂, by simp [h1], h2,
          by simp [lockFreeRemoveTask, ht, h3],
          by simp [lockFreeRemoveTask, ht, h4]⟩

/-- With duplicate-free ids, after removal the id is gone. -/
theorem removeTask_absent (tid : Nat) :
    ∀ l : List Task, (l.map Task.id).Nodup →
      ∀ t' ∈ (lockFreeRemoveTask tid l).2, t'.id ≠ tid
  | [], _, t', ht' => by simp [lockFreeRemoveTask] at ht'
  | t :: ts, hnd, t', ht' => by
      rw [List.map_cons, List.nodup_cons] at hnd
      by_cases h : t.id = tid
      · simp only [lockFreeRemoveTask, if_pos h] at ht'
        intro hc
        exact hnd.1 (h ▸ hc ▸ List.mem_map_of_mem Task.id ht')
      · simp only [lockFreeRemoveTask, if_neg h, List.mem_cons] at ht'
        rcases ht' with rfl | hm
        · exact h
        · exact removeTask_absent tid ts hnd.2 t' hm

/-- Well-formedness of a task list against the id counter: sorted by
`(executeTime, id)`, every id at most the counter, ids duplicate-free. -/
def TasksInv (l : List Task) (c : Nat) : Prop :=
  l.Pairwise taskKeyLt ∧ (∀ t ∈ l, t.id ≤ c) ∧ (l.map Task.id).Nodup

instance (l : List Task) (c : Nat) : Decidable (TasksInv l c) := by
  unfold TasksInv; infer_instance

/-- The Task Store ordering invariant. -/
def Inv (q : TaskQueue) : Prop := TasksInv q.tasks q.taskIdCounter

instance (q : TaskQueue) : Decidable (Inv q) := by
  unfold Inv; infer_instance

/-- Inserting a task with the freshly incremented id preserves
well-formedness. -/
theorem tasksInv_insert (l : List Task) (c : Nat) (f : DispatchFunction)
    (et : Nat) (b : Bool) (h : TasksInv l c) :
    TasksInv (insertUB ⟨c + 1, f, et, b⟩ l) (c + 1) := by
  obtain ⟨hp, hle, hnd⟩ := h
  have hfresh : ∀ e ∈ l, e.id < c + 1 := fun e he => Nat.lt_succ_of_le (hle e he)
  refine ⟨insertUB_pairwise _ _ hp hfresh, ?_, ?_⟩
  · intro t ht
    rcases (mem_insertUB t _ l).1 ht with rfl | hm
    · exact le_refl _
    · exact le_trans (hle t hm) (Nat.le_succ _)
  · rw [((insertUB_perm ⟨c + 1, f, et, b⟩ l).map Task.id).nodup_iff]
    rw [List.map_cons, List.nodup_cons]
    refine ⟨fun hc => ?_, hnd⟩
    obtain ⟨t, ht, hid⟩ := List.mem_map.1 hc
    exact (Nat.ne_of_lt (hfresh t ht)) hid

/-- Well-formedness restricts to sublists. -/
theorem tasksInv_sublist {l l' : List Task} {c : Nat} (hs : l'.Sublist l)
    (h : TasksInv l c) : TasksInv l' c :=
  ⟨h.1.sublist hs, fun t ht => h.2.1 t (hs.subset ht),
    h.2.2.sublist (hs.map Task.id)⟩

/-- State outcomes of `nextTask`: unchanged, empty flag set, or head popped
with the running count bumped under the ceiling. -/
theorem nextTask_state_cases (q : TaskQueue) (now maxTime : Nat) :
    (nextTask q now maxTime).state = q ∨
    (nextTask q now maxTime).state = { q with empty := true } ∨
    ∃ t rest, q.tasks = t :: rest ∧
      q.currentRunningTasks < q.maxConcurrentTasks ∧
      (nextTask q now maxTime).state =
        { q with tasks := rest,
                 currentRunningTasks := q.currentRunningTasks + 1 } := by
  unfold nextTask
  cases hd : q.disposed
  case true => exact Or.inl (by simp)
  case false =>
    cases hts : q.tasks with
    | nil =>
        cases he : q.empty
        case true => exact Or.inl (by simp)
        case false => exact Or.inr (Or.inl (by simp))
    | cons t rest =>
        by_cases hc : q.maxConcurrentTasks ≤ q.currentRunningTasks
        · exact Or.inl (by simp [hc])
        · cases hb : t.isBarrier with
          | true => exact Or.inl (by simp [hc, hb])
          | false =>
            by_cases hr : t.executeTime ≤ now ∨ t.executeTime < maxTime
            · exact Or.inr (Or.inr ⟨t, rest, rfl, lt_of_not_le hc,
                by simp [hc, hb, hr]⟩)
            · exact Or.inl (by simp [hc, hb, hr])

/-- The invariant depends only on the task list and the id counter. -/
theorem inv_congr {q q' : TaskQueue} (ht : q'.tasks = q.tasks)
    (hc : q'.taskIdCounter = q.taskIdCounter) (h : Inv q) : Inv q' := by
  unfold Inv TasksInv at *
  rw [ht, hc]
  exact h

/-- The wait-loop exit of `barrier` either leaves the state alone or only
bumps the running count. -/
theorem barrierAcquire_state (q : TaskQueue) (tid : Nat) :
    (applyOpE q (Op.barrierAcquireOp tid)).1 = q ∨
    (q.currentRunningTasks = 0 ∧
      (applyOpE q (Op.barrierAcquireOp tid)).1 =
        { q with currentRunningTasks := q.currentRunningTasks + 1 }) := by
  rcases hts : q.tasks with _ | ⟨t, rest⟩
  · exact Or.inl (by simp [applyOpE, hts])
  · by_cases hc : q.currentRunningTasks = 0 ∧ t.id = tid
    · exact Or.inr ⟨hc.1, by simp [applyOpE, hts, hc]⟩
    · exact Or.inl (by simp [applyOpE, hts, hc])

/-- Every operation of the Task Store preserves the ordering invariant. -/
theorem inv_applyOp (q : TaskQueue) (op : Op) (h : Inv q) :
    Inv (applyOp q op) := by
  cases op with
  | enqueueOp f t =>
      show Inv (enqueue q f t).state
      unfold enqueue
      cases hd : q.disposed with
      | true => simpa using h
      | false =>
        rw [if_neg Bool.false_ne_true]
        simp only [insertTask]
        split
        · exact tasksInv_insert q.tasks q.taskIdCounter f t false h
        · exact tasksInv_insert q.tasks q.taskIdCounter f t false h
  | cancelOp tid =>
      exact tasksInv_sublist (removeTask_sublist tid q.tasks) h
  | acquireOp now maxTime =>
      show Inv (nextTask q now maxTime).state
      rcases nextTask_state_cases q now maxTime with h1 | h1 | ⟨t, rest, hts, _, h1⟩
      · rw [h1]; exact h
      · rw [h1]; exact h
      · rw [h1]
        have h2 : TasksInv (t :: rest) q.taskIdCounter := by rw [← hts]; exact h
        exact tasksInv_sublist (List.sublist_cons_self t rest) h2
  | completeOp => exact h
  | barrierInsertOp now =>
      exact tasksInv_insert q.tasks q.taskIdCounter none now true h
  | barrierAcquireOp tid =>
      show Inv (applyOpE q (Op.barrierAcquireOp tid)).1
      rcases barrierAcquire_state q tid with h1 | ⟨_, h1⟩
      · rw [h1]; exact h
      · rw [h1]; exact h
  | barrierFinishOp tid =>
      exact tasksInv_sublist (removeTask_sublist tid q.tasks) h
  | disposeOp =>
      show Inv (dispose q)
      unfold dispose
      split
      · exact h
      · exact ⟨List.Pairwise.nil, by simp, List.nodup_nil⟩
  | setMaxOp n =>
      show Inv (setMaxConcurrentTasks q n)
      unfold setMaxConcurrentTasks
      split
      · exact h
      · exact h
  | setListenerOp b => exact h

/-- Master case analysis of `nextTask`: either the pop branch fires — with all
its guards — or nothing runs, no callable is handed out, and the state is
unchanged except possibly for the empty flag. -/
theorem nextTask_main (q : TaskQueue) (now maxTime : Nat) :
    (q.disposed = false ∧ ∃ t rest, q.tasks = t :: rest ∧
       q.currentRunningTasks < q.maxConcurrentTasks ∧ t.isBarrier = false ∧
       (t.executeTime ≤ now ∨ t.executeTime < maxTime) ∧
       nextTask q now maxTime =
         ⟨t.function, true, max now t.executeTime,
           { q with tasks := rest,
                    currentRunningTasks := q.currentRunningTasks + 1 }, []⟩) ∨
    ((nextTask q now maxTime).shouldRun = false ∧
     (nextTask q now maxTime).function = none ∧
     (nextTask q now maxTime).runTime = now ∧
     ((nextTask q now maxTime).state = q ∨
      (nextTask q now maxTime).state = { q with empty := true })) := by
  cases hd : q.disposed with
  | true => exact Or.inr (by simp [nextTask, hd])
  | false =>
    rcases hts : q.tasks with _ | ⟨t, rest⟩
    · cases he : q.empty with
      | true => exact Or.inr (by simp [nextTask, hd, hts, he])
      | false => exact Or.inr (by simp [nextTask, hd, hts, he])
    · by_cases hc : q.maxConcurrentTasks ≤ q.currentRunningTasks
      · exact Or.inr (by simp [nextTask, hd, hts, hc])
      · cases hb : t.isBarrier with
        | true => exact Or.inr (by simp [nextTask, hd, hts, hc, hb])
        | false =>
          by_cases hr : t.executeTime ≤ now ∨ t.executeTime < maxTime
          · exact Or.inl ⟨rfl, t, rest, rfl, lt_of_not_le hc, hb, hr,
              by simp [nextTask, hd, hts, hc, hb, hr]⟩
          · exact Or.inr (by simp [nextTask, hd, hts, hc, hb, hr])

/-- A successful pop of `runNextTask`, in full: the head's callable is
invoked at `max now executeTime`, the head is removed, and the running count
is restored by the final decrement. -/
theorem runNextTask_pop (q : TaskQueue) (now maxTime : Nat) (t : Task)
    (rest : List Task) (hd : q.disposed = false) (hts : q.tasks = t :: rest)
    (hc : q.currentRunningTasks < q.maxConcurrentTasks)
    (hb : t.isBarrier = false)
    (hr : t.executeTime ≤ now ∨ t.executeTime < maxTime) :
    runNextTask q now maxTime =
      ⟨true, some t.function, max now t.executeTime,
        { q with tasks := rest }, []⟩ := by
  simp [runNextTask, nextTask, hd, hts, not_le.mpr hc, hb, hr]

/-- On a disposed queue `runNextTask` is a no-op returning false. -/
theorem runNextTask_disposed (q : TaskQueue) (now maxTime : Nat)
    (hd : q.disposed = true) :
    runNextTask q now maxTime = ⟨false, none, now, q, []⟩ := by
  simp [runNextTask, nextTask, hd]

/-- Master case analysis of `runNextTask`. -/
theorem runNextTask_main (q : TaskQueue) (now maxTime : Nat) :
    (q.disposed = false ∧ ∃ t rest, q.tasks = t :: rest ∧
       q.currentRunningTasks < q.maxConcurrentTasks ∧ t.isBarrier = false ∧
       (t.executeTime ≤ now ∨ t.executeTime < maxTime) ∧
       runNextTask q now maxTime =
         ⟨true, some t.function, max now t.executeTime,
           { q with tasks := rest }, []⟩) ∨
    ((runNextTask q now maxTime).ran = false ∧
     (runNextTask q now maxTime).executed = none ∧
     ((runNextTask q now maxTime).state = q ∨
      (runNextTask q now maxTime).state = { q with empty := true })) := by
  rcases nextTask_main q now maxTime with
    ⟨hd, t, rest, hts, hc, hb, hr, heq⟩ | ⟨h1, h2, h3, h4⟩
  · exact Or.inl ⟨hd, t, rest, hts, hc, hb, hr,
      runNextTask_pop q now maxTime t rest hd hts hc hb hr⟩
  · have hre : runNextTask q now maxTime =
        ⟨false, none, (nextTask q now maxTime).runTime,
          (nextTask q now maxTime).state, (nextTask q now maxTime).events⟩ := by
      simp [runNextTask, h1]
    rw [hre]
    exact Or.inr ⟨rfl, rfl, h4⟩

/-- `runNextTask` returns true exactly when the queue is live and its head is
a ready, non-barrier task admissible under the ceiling. -/
theorem runNextTask_ran_iff (q : TaskQueue) (now maxTime : Nat) :
    (runNextTask q now maxTime).ran = true ↔
      q.disposed = false ∧ ∃ t rest, q.tasks = t :: rest ∧
        q.currentRunningTasks < q.maxConcurrentTasks ∧ t.isBarrier = false ∧
        (t.executeTime ≤ now ∨ t.executeTime < maxTime) := by
  rcases runNextTask_main q now maxTime with
    ⟨hd, t, rest, hts, hc, hb, hr, heq⟩ | ⟨h1, _, _⟩
  · rw [heq]
    exact iff_of_true rfl ⟨hd, t, rest, hts, hc, hb, hr⟩
  · constructor
    · intro hx
      rw [h1] at hx
      cases hx
    · rintro ⟨hd, t, rest, hts, hc, hb, hr⟩
      rw [runNextTask_pop q now maxTime t rest hd hts hc hb hr] at h1
      cases h1

/-- Rejected enqueue: on a disposed queue nothing at all happens. -/
theorem enqueue_disposed (q : TaskQueue) (f : DispatchFunction) (et : Nat)
    (hd : q.disposed = true) : enqueue q f et = ⟨⟨0, false⟩, q, []⟩ := by
  simp [enqueue, hd]

/-- Accepted enqueue, in full: fresh id, upper-bound insertion, `first_`
captured then cleared, `empty_` cleared, the non-empty edge fired exactly on
the empty-to-nonempty transition with a listener present. -/
theorem enqueue_spec (q : TaskQueue) (f : DispatchFunction) (et : Nat)
    (hd : q.disposed = false) :
    enqueue q f et =
      ⟨⟨q.taskIdCounter + 1, q.first⟩,
        { q with taskIdCounter := q.taskIdCounter + 1,
                 tasks := insertUB ⟨q.taskIdCounter + 1, f, et, false⟩ q.tasks,
                 first := false, empty := false },
        if q.empty = true ∧ q.listener = true then [QEvent.nonEmpty]
        else []⟩ := by
  cases he : q.empty with
  | true =>
      cases hl : q.listener with
      | true => simp [enqueue, insertTask, hd, he, hl]
      | false => simp [enqueue, insertTask, hd, he, hl]
  | false => simp [enqueue, insertTask, hd, he]

/-- Listener callbacks fired by an enqueue. -/
theorem enqueue_events (q : TaskQueue) (f : DispatchFunction) (et : Nat) :
    (enqueue q f et).events =
      if q.disposed = false ∧ q.empty = true ∧ q.listener = true
      then [QEvent.nonEmpty] else [] := by
  cases hd : q.disposed with
  | true => simp [enqueue_disposed q f et hd, hd]
  | false =>
      rw [enqueue_spec q f et hd]
      by_cases he : q.empty = true ∧ q.listener = true
      · simp [he, hd]
      · simp only [he, if_false]
        simp [hd, he]

/-- Listener callbacks fired by `nextTask`. -/
theorem nextTask_events (q : TaskQueue) (now maxTime : Nat) :
    (nextTask q now maxTime).events =
      if q.disposed = false ∧ q.tasks = [] ∧ q.empty = false ∧
          q.listener = true
      then [QEvent.qEmpty] else [] := by
  cases hd : q.disposed with
  | true => simp [nextTask, hd]
  | false =>
    rcases hts : q.tasks with _ | ⟨t, rest⟩
    · cases he : q.empty with
      | true => simp [nextTask, hd, hts, he]
      | false =>
          cases hl : q.listener with
          | true => simp [nextTask, hd, hts, he, hl]
          | false => simp [nextTask, hd, hts, he, hl]
    · by_cases hc : q.maxConcurrentTasks ≤ q.currentRunningTasks
      · simp [nextTask, hd, hts, hc]
      · cases hb : t.isBarrier with
        | true => simp [nextTask, hd, hts, hc, hb]
        | false =>
          by_cases hr : t.executeTime ≤ now ∨ t.executeTime < maxTime
          · simp [nextTask, hd, hts, hc, hb, hr]
          · simp [nextTask, hd, hts, hc, hb, hr]

/-- Unfolding of `flush` when the step failed. -/
theorem flush_false (q : TaskQueue) (now : Nat)
    (h : (runNextTask q now now).ran = false) :
    flush q now = (0, (runNextTask q now now).state, []) := by
  rw [flush]
  rw [dif_neg (by simp [h])]

/-- Unfolding of `flush` when the step succeeded. -/
theorem flush_true (q : TaskQueue) (now : Nat)
    (h : (runNextTask q now now).ran = true) :
    flush q now =
      ((flush (runNextTask q now now).state now).1 + 1,
       (flush (runNextTask q now now).state now).2.1,
       ((runNextTask q now now).executed.getD none) ::
         (flush (runNextTask q now now).state now).2.2) := by
  rw [flush]
  rw [dif_pos h]

/-- The count `flush` returns is the number of callables it invoked. -/
theorem flush_count_eq_length (q : TaskQueue) (now : Nat) :
    (flush q now).1 = (flush q now).2.2.length := by
  by_cases h : (runNextTask q now now).ran = true
  · rw [flush_true q now h]
    simp [flush_count_eq_length (runNextTask q now now).state now]
  · rw [flush_false q now (by simpa using h)]
    simp
termination_by q.tasks.length
decreasing_by exact runNextTask_ran_tasks_lt q now now h

/-- When every pending task is strictly in the future, `flush` invokes
nothing. -/
theorem flush_future_only (q : TaskQueue) (now : Nat)
    (hf : ∀ t ∈ q.tasks, now < t.executeTime) :
    (flush q now).1 = 0 ∧ (flush q now).2.2 = [] := by
  have h : (runNextTask q now now).ran = false := by
    rw [← Bool.not_eq_true, runNextTask_ran_iff]
    rintro ⟨hd, t, rest, hts, hc, hb, hr⟩
    have hm := hf t (by rw [hts]; exact List.mem_cons_self t rest)
    rcases hr with hr | hr <;> omega
  rw [flush_false q now h]
  exact ⟨rfl, rfl⟩

/-- The wait-loop exit decision of `barrier` never reads the disposed flag:
flipping it changes nothing about whether the callable is invoked. -/
theorem barrier_disposed_indep (q : TaskQueue) (f : DispatchFunction)
    (now : Nat) (b : Bool) :
    (barrier { q with disposed := b } f now).invoked =
      (barrier q f now).invoked := by
  unfold barrier insertTask
  rcases h : insertUB ⟨q.taskIdCounter + 1, none, now, true⟩ q.tasks
    with _ | ⟨t, rest⟩
  · simp [h]
  · simp only [h]
    by_cases hc : q.currentRunningTasks = 0 ∧ t.id = q.taskIdCounter + 1
    · simp [hc]
    · simp [hc]

/-- A barrier taken on a queue with no pending tasks and nothing running:
the inserted barrier is immediately the head, the callable is invoked, the
barrier entry is removed again and the running count returns to zero. -/
theorem barrier_ready (q : TaskQueue) (f : DispatchFunction) (now : Nat)
    (hr : q.currentRunningTasks = 0) (hts : q.tasks = []) :
    barrier q f now =
      ⟨q.taskIdCounter + 1, some f,
        { q with taskIdCounter := q.taskIdCounter + 1 }⟩ := by
  simp [barrier, insertTask, hts, insertUB, hr, lockFreeRemoveTask]

/-- The empty flag after `nextTask`: unchanged, except that it is set on the
live-and-empty-with-flag-clear branch. -/
theorem nextTask_state_empty (q : TaskQueue) (now maxTime : Nat) :
    (nextTask q now maxTime).state.empty = q.empty ∨
    (q.disposed = false ∧ q.tasks = [] ∧ q.empty = false ∧
      (nextTask q now maxTime).state.empty = true) := by
  cases hd : q.disposed with
  | true => exact Or.inl (by simp [nextTask, hd])
  | false =>
    rcases hts : q.tasks with _ | ⟨t, rest⟩
    · cases he : q.empty with
      | true => exact Or.inl (by simp [nextTask, hd, hts, he])
      | false =>
          exact Or.inr ⟨rfl, rfl, rfl, by simp [nextTask, hd, hts, he]⟩
    · by_cases hc : q.maxConcurrentTasks ≤ q.currentRunningTasks
      · exact Or.inl (by simp [nextTask, hd, hts, hc])
      · cases hb : t.isBarrier with
        | true => exact Or.inl (by simp [nextTask, hd, hts, hc, hb])
        | false =>
          by_cases hr : t.executeTime ≤ now ∨ t.executeTime < maxTime
          · exact Or.inl (by simp [nextTask, hd, hts, hc, hb, hr])
          · exact Or.inl (by simp [nextTask, hd, hts, hc, hb, hr])

/-- The listener registration survives every operation except an explicit
`setListener`. -/
theorem applyOp_listener (q : TaskQueue) (op : Op)
    (hk : keepsListener op = true) :
    (applyOpE q op).1.listener = q.listener := by
  cases op with
  | enqueueOp f t =>
      show (enqueue q f t).state.listener = q.listener
      cases hd : q.disposed with
      | true => rw [enqueue_disposed q f t hd]
      | false => rw [enqueue_spec q f t hd]
  | cancelOp tid => rfl
  | acquireOp now maxTime =>
      show (nextTask q now maxTime).state.listener = q.listener
      rcases nextTask_state_cases q now maxTime with h1 | h1 | ⟨t, rest, _, _, h1⟩ <;>
        rw [h1]
  | completeOp => rfl
  | barrierInsertOp now => rfl
  | barrierAcquireOp tid =>
      rcases barrierAcquire_state q tid with h1 | ⟨_, h1⟩ <;> rw [h1]
  | barrierFinishOp tid => rfl
  | disposeOp =>
      show (dispose q).listener = q.listener
      unfold dispose
      split <;> rfl
  | setMaxOp n =>
      show (setMaxConcurrentTasks q n).listener = q.listener
      unfold setMaxConcurrentTasks
      split <;> rfl
  | setListenerOp b => cases hk

/-- Per-operation edge discipline: with a listener registered and kept, an
operation fires no callback and leaves the empty flag alone, or fires exactly
`onQueueNonEmpty` on a true-to-false flag transition (enqueue path), or fires
exactly `onQueueEmpty` on a false-to-true flag transition (step path). -/
theorem applyOpE_edge (q : TaskQueue) (op : Op) (hl : q.listener = true)
    (hk : keepsListener op = true) :
    ((applyOpE q op).2 = [] ∧ (applyOpE q op).1.empty = q.empty) ∨
    ((applyOpE q op).2 = [QEvent.nonEmpty] ∧ q.empty = true ∧
        (applyOpE q op).1.empty = false) ∨
    ((applyOpE q op).2 = [QEvent.qEmpty] ∧ q.empty = false ∧
        (applyOpE q op).1.empty = true) := by
  cases op with
  | enqueueOp f t =>
      show ((enqueue q f t).events = [] ∧
          (enqueue q f t).state.empty = q.empty) ∨
        ((enqueue q f t).events = [QEvent.nonEmpty] ∧ q.empty = true ∧
          (enqueue q f t).state.empty = false) ∨
        ((enqueue q f t).events = [QEvent.qEmpty] ∧ q.empty = false ∧
          (enqueue q f t).state.empty = true)
      cases hd : q.disposed with
      | true => rw [enqueue_disposed q f t hd]; exact Or.inl ⟨rfl, rfl⟩
      | false =>
          rw [enqueue_spec q f t hd]
          cases he : q.empty with
          | true => exact Or.inr (Or.inl ⟨by simp [hl], rfl, rfl⟩)
          | false => exact Or.inl ⟨by simp, rfl⟩
  | cancelOp tid => exact Or.inl ⟨rfl, rfl⟩
  | acquireOp now maxTime =>
      show ((nextTask q now maxTime).events = [] ∧
          (nextTask q now maxTime).state.empty = q.empty) ∨
        ((nextTask q now maxTime).events = [QEvent.nonEmpty] ∧
          q.empty = true ∧ (nextTask q now maxTime).state.empty = false) ∨
        ((nextTask q now maxTime).events = [QEvent.qEmpty] ∧
          q.empty = false ∧ (nextTask q now maxTime).state.empty = true)
      have hev := nextTask_events q now maxTime
      by_cases hc : q.disposed = false ∧ q.tasks = [] ∧ q.empty = false ∧
          q.listener = true
      · refine Or.inr (Or.inr ⟨by rw [hev, if_pos hc], hc.2.2.1, ?_⟩)
        simp [nextTask, hc.1, hc.2.1, hc.2.2.1]
      · refine Or.inl ⟨by rw [hev, if_neg hc], ?_⟩
        rcases nextTask_state_empty q now maxTime with h1 | ⟨hd, hts, he, _⟩
        · exact h1
        · exact absurd ⟨hd, hts, he, hl⟩ hc
  | completeOp => exact Or.inl ⟨rfl, rfl⟩
  | barrierInsertOp now => exact Or.inl ⟨rfl, rfl⟩
  | barrierAcquireOp tid =>
      refine Or.inl ⟨rfl, ?_⟩
      show (applyOpE q (Op.barrierAcquireOp tid)).1.empty = q.empty
      rcases barrierAcquire_state q tid with h1 | ⟨_, h1⟩ <;> rw [h1]
  | barrierFinishOp tid => exact Or.inl ⟨rfl, rfl⟩
  | disposeOp =>
      refine Or.inl ⟨rfl, ?_⟩
      show (dispose q).empty = q.empty
      unfold dispose
      split <;> rfl
  | setMaxOp n =>
      refine Or.inl ⟨rfl, ?_⟩
      show (setMaxConcurrentTasks q n).empty = q.empty
      unfold setMaxConcurrentTasks
      split <;> rfl
  | setListenerOp b => cases hk

/-- With a listener registered and never replaced, the callback trace of any
operation sequence alternates according to the empty flag. -/
theorem trace_alternates (ops : List Op) : ∀ q : TaskQueue,
    q.listener = true → (∀ op ∈ ops, keepsListener op = true) →
    alternatesFrom q.empty (traceOf q ops) = true := by
  induction ops with
  | nil =>
      intro q _ _
      show alternatesFrom q.empty [] = true
      cases q.empty <;> rfl
  | cons op ops ih =>
      intro q hl hk
      have hkop := hk op (List.mem_cons_self op ops)
      have hk' : ∀ o ∈ ops, keepsListener o = true :=
        fun o ho => hk o (List.mem_cons_of_mem op ho)
      have hl' : (applyOp q op).listener = true :=
        (applyOp_listener q op hkop).trans hl
      have ihs := ih (applyOp q op) hl' hk'
      show alternatesFrom q.empty
        ((applyOpE q op).2 ++ traceOf (applyOp q op) ops) = true
      rcases applyOpE_edge q op hl hkop with ⟨h1, h2⟩ | ⟨h1, h2, h3⟩ |
        ⟨h1, h2, h3⟩
      · rw [h1, List.nil_append]
        rw [show (applyOp q op).empty = q.empty from h2] at ihs
        exact ihs
      · rw [h1, h2]
        show alternatesFrom false (traceOf (applyOp q op) ops) = true
        rw [show (applyOp q op).empty = false from h3] at ihs
        exact ihs
      · rw [h1, h2]
        show alternatesFrom true (traceOf (applyOp q op) ops) = true
        rw [show (applyOp q op).empty = true from h3] at ihs
        exact ihs

/-- One operation cannot resurrect an id that is absent and already taken by
the counter: the absence persists and the counter keeps covering it. -/
theorem applyOp_id_absent (q : TaskQueue) (op : Op) (tid : Nat)
    (habs : ∀ t ∈ q.tasks, t.id ≠ tid) (hle : tid ≤ q.taskIdCounter) :
    (∀ t ∈ (applyOp q op).tasks, t.id ≠ tid) ∧
      tid ≤ (applyOp q op).taskIdCounter := by
  cases op with
  | enqueueOp f et =>
      show (∀ t ∈ (enqueue q f et).state.tasks, t.id ≠ tid) ∧
        tid ≤ (enqueue q f et).state.taskIdCounter
      cases hd : q.disposed with
      | true => rw [enqueue_disposed q f et hd]; exact ⟨habs, hle⟩
      | false =>
          rw [enqueue_spec q f et hd]
          refine ⟨?_, le_trans hle (Nat.le_succ _)⟩
          intro t ht
          rcases (mem_insertUB t _ q.tasks).1 ht with rfl | hm
          · show q.taskIdCounter + 1 ≠ tid
            omega
          · exact habs t hm
  | cancelOp tid2 =>
      exact ⟨fun t ht => habs t ((removeTask_sublist tid2 q.tasks).subset ht),
        hle⟩
  | acquireOp now maxTime =>
      show (∀ t ∈ (nextTask q now maxTime).state.tasks, t.id ≠ tid) ∧
        tid ≤ (nextTask q now maxTime).state.taskIdCounter
      rcases nextTask_state_cases q now maxTime with h1 | h1 |
        ⟨t, rest, hts, _, h1⟩ <;> rw [h1]
      · exact ⟨habs, hle⟩
      · exact ⟨habs, hle⟩
      · exact ⟨fun t' ht' =>
          habs t' (by rw [hts]; exact List.mem_cons_of_mem t ht'), hle⟩
  | completeOp => exact ⟨habs, hle⟩
  | barrierInsertOp now =>
      show (∀ t ∈ (insertTask q none now true).2.tasks, t.id ≠ tid) ∧
        tid ≤ (insertTask q none now true).2.taskIdCounter
      refine ⟨?_, le_trans hle (Nat.le_succ _)⟩
      intro t ht
      rcases (mem_insertUB t _ q.tasks).1 ht with rfl | hm
      · show q.taskIdCounter + 1 ≠ tid
        omega
      · exact habs t hm
  | barrierAcquireOp tid2 =>
      show (∀ t ∈ (applyOpE q (Op.barrierAcquireOp tid2)).1.tasks, t.id ≠ tid) ∧
        tid ≤ (applyOpE q (Op.barrierAcquireOp tid2)).1.taskIdCounter
      rcases barrierAcquire_state q tid2 with h1 | ⟨_, h1⟩ <;> rw [h1]
      · exact ⟨habs, hle⟩
      · exact ⟨habs, hle⟩
  | barrierFinishOp tid2 =>
      exact ⟨fun t ht => habs t ((removeTask_sublist tid2 q.tasks).subset ht),
        hle⟩
  | disposeOp =>
      show (∀ t ∈ (dispose q).tasks, t.id ≠ tid) ∧
        tid ≤ (dispose q).taskIdCounter
      unfold dispose
      split
      · exact ⟨habs, hle⟩
      · exact ⟨by simp, hle⟩
  | setMaxOp n =>
      show (∀ t ∈ (setMaxConcurrentTasks q n).tasks, t.id ≠ tid) ∧
        tid ≤ (setMaxConcurrentTasks q n).taskIdCounter
      unfold setMaxConcurrentTasks
      split
      · exact ⟨habs, hle⟩
      · exact ⟨habs, hle⟩
  | setListenerOp b => exact ⟨habs, hle⟩

/-- An id absent with the counter past it stays out of the task list under
every subsequent operation sequence. -/
theorem applyOps_id_absent (tid : Nat) :
    ∀ (ops : List Op) (q : TaskQueue),
      (∀ t ∈ q.tasks, t.id ≠ tid) → tid ≤ q.taskIdCounter →
      ∀ t ∈ (applyOps q ops).tasks, t.id ≠ tid
  | [], _, habs, _ => habs
  | op :: ops, q, habs, hle => by
      have h := applyOp_id_absent q op tid habs hle
      exact applyOps_id_absent tid ops (applyOp q op) h.1 h.2

/-- The concurrency bound together with a positive ceiling. -/
def CeilingInv (q : TaskQueue) : Prop :=
  q.currentRunningTasks ≤ q.maxConcurrentTasks ∧ 1 ≤ q.maxConcurrentTasks

instance (q : TaskQueue) : Decidable (CeilingInv q) := by
  unfold CeilingInv; infer_instance

/-- Side conditions tying machine operations to real executions: a completion
is always paired with a preceding acquisition (the running count is then
positive), and `setMaxConcurrentTasks(n)` keeps `n` at or above the running
count and at least 1. -/
def opOK (q : TaskQueue) : Op → Prop
  | Op.completeOp => 1 ≤ q.currentRunningTasks
  | Op.barrierFinishOp _ => 1 ≤ q.currentRunningTasks
  | Op.setMaxOp n => q.currentRunningTasks ≤ n ∧ 1 ≤ n
  | _ => True

instance (q : TaskQueue) (op : Op) : Decidable (opOK q op) := by
  unfold opOK
  cases op <;> infer_instance

/-- Under the `opOK` side conditions every operation preserves
`running ≤ ceiling` and the positivity of the ceiling. -/
theorem ceilingInv_applyOp (q : TaskQueue) (op : Op) (h : CeilingInv q)
    (hok : opOK q op) : CeilingInv (applyOp q op) := by
  obtain ⟨h1, h2⟩ := h
  cases op with
  | enqueueOp f t =>
      show CeilingInv (enqueue q f t).state
      cases hd : q.disposed with
      | true => rw [enqueue_disposed q f t hd]; exact ⟨h1, h2⟩
      | false => rw [enqueue_spec q f t hd]; exact ⟨h1, h2⟩
  | cancelOp tid => exact ⟨h1, h2⟩
  | acquireOp now maxTime =>
      show CeilingInv (nextTask q now maxTime).state
      rcases nextTask_state_cases q now maxTime with hx | hx |
        ⟨t, rest, _, hlt, hx⟩ <;> rw [hx]
      · exact ⟨h1, h2⟩
      · exact ⟨h1, h2⟩
      · exact ⟨hlt, h2⟩
  | completeOp => exact ⟨le_trans (Nat.sub_le _ _) h1, h2⟩
  | barrierInsertOp now => exact ⟨h1, h2⟩
  | barrierAcquireOp tid =>
      show CeilingInv (applyOpE q (Op.barrierAcquireOp tid)).1
      rcases barrierAcquire_state q tid with hx | ⟨hr0, hx⟩ <;> rw [hx]
      · exact ⟨h1, h2⟩
      · refine ⟨?_, h2⟩
        show q.currentRunningTasks + 1 ≤ q.maxConcurrentTasks
        omega
  | barrierFinishOp tid => exact ⟨le_trans (Nat.sub_le _ _) h1, h2⟩
  | disposeOp =>
      show CeilingInv (dispose q)
      unfold dispose
      split
      · exact ⟨h1, h2⟩
      · exact ⟨h1, h2⟩
  | setMaxOp n =>
      show CeilingInv (setMaxConcurrentTasks q n)
      unfold setMaxConcurrentTasks
      split
      · exact ⟨h1, h2⟩
      · exact ⟨hok.1, hok.2⟩
  | setListenerOp b => exact ⟨h1, h2⟩

/-- Cancelling an id that is not pending leaves the state unchanged. -/
theorem cancel_absent (q : TaskQueue) (tid : Nat)
    (habs : ∀ t ∈ q.tasks, t.id ≠ tid) : cancel q tid = q := by
  unfold cancel
  rw [removeTask_not_mem tid q.tasks habs]

/-!
Model of the no-caller-execution mode of `ThreadedDispatchQueue::sync`
(ThreadedDispatchQueue.cpp).  With `disableSyncCallsInCallingThread_` set the
caller builds a `std::promise<void>`, posts via `async` the lambda

  runningSync_ = true; function(); promise.set_value(); runningSync_ = false;

and blocks on `future.get()`.  The callable is modelled as `Except Unit Unit`:
`ok` returns normally, `error` throws.  A thrown exception aborts the lambda
body at the point of the call, so the statements after `function()` do not
execute.
-/

/-- State of the `std::promise<void>` shared state: unfulfilled, fulfilled
with a value (`set_value`), or fulfilled with an exception
(`set_exception`). -/
inductive PromiseState where
  | unset
  | hasValue
  | hasException
deriving DecidableEq

/-- Observable outcome of the worker-side task body: the promise state, the
exception escaping the task (if any), and the `runningSync_` flag when the
body ends. -/
structure SyncTaskOutcome where
  promise : PromiseState
  escaped : Option Unit
  runningSync : Bool
deriving DecidableEq

/-- The worker-side lambda of `ThreadedDispatchQueue::sync` in
no-caller-execution mode, statement by statement: set `runningSync_`, invoke
the callable, `promise.set_value()`, clear `runningSync_`.  A throwing
callable aborts the body: the promise is never touched and the exception
escapes the task into the worker loop. -/
def syncNoCallerTaskBody (callable : Except Unit Unit) : SyncTaskOutcome :=
  match callable with
  | Except.error e =>
      { promise := PromiseState.unset, escaped := some e, runningSync := true }
  | Except.ok _ =>
      { promise := PromiseState.hasValue, escaped := none,
        runningSync := false }

/-- `future.get()` returns control to the caller exactly when the promise was
fulfilled (with a value or an exception). -/
def callerUnblocked (o : SyncTaskOutcome) : Bool :=
  decide (o.promise ≠ PromiseState.unset)

/-- `future.get()` re-raises on the caller exactly when the promise holds an
exception. -/
def exceptionReRaisedOnCaller (o : SyncTaskOutcome) : Bool :=
  decide (o.promise = PromiseState.hasException)

/-!
The claims.
-/

/-- C1: between Task Store operations the pending sequence is sorted
ascending by `(ready_at, id)`: the invariant (sortedness, ids bounded by the
counter, ids duplicate-free) holds for the fresh store and is preserved by
every operation — enqueue, cancel, step acquisition and completion, the three
barrier phases, dispose, ceiling and listener updates.  Moreover an accepted
enqueue inserts its task at the upper-bound position: after every pending task
with `executeTime` at most the new one — in particular after all equal-time
entries, so equal-time submissions stay in FIFO submission order, the fresh id
being strictly greater than every existing id — and before every strictly
later one. -/
theorem c1_ordering_invariant :
    Inv initialQueue ∧
    (∀ (q : TaskQueue) (op : Op), Inv q → Inv (applyOp q op)) ∧
    (∀ (q : TaskQueue) (f : DispatchFunction) (et : Nat),
      Inv q → q.disposed = false →
      ∃ l₁ l₂, q.tasks = l₁ ++ l₂ ∧
        (enqueue q f et).state.tasks =
          l₁ ++ ⟨q.taskIdCounter + 1, f, et, false⟩ :: l₂ ∧
        (∀ e ∈ l₁, e.executeTime ≤ et) ∧
        (∀ e ∈ l₂, et < e.executeTime)) := by
  refine ⟨by decide, inv_applyOp, ?_⟩
  intro q f et hinv hd
  obtain ⟨l₁, l₂, h1, h2, h3, h4⟩ :=
    insertUB_decomp ⟨q.taskIdCounter + 1, f, et, false⟩ q.tasks
  refine ⟨l₁, l₂, h1, ?_, ?_, ?_⟩
  · rw [enqueue_spec q f et hd]
    exact h2
  · intro e he
    have hmem : e ∈ q.tasks := by
      rw [h1]; exact List.mem_append_left l₂ he
    have hid : e.id < q.taskIdCounter + 1 :=
      Nat.lt_succ_of_le (hinv.2.1 e hmem)
    have hkey := keyLt_of_not_ltB (h3 e he) hid
    rcases hkey with hk | ⟨hk, _⟩
    · exact le_of_lt hk
    · exact le_of_eq hk
  · intro e he
    rcases hl2 : l₂ with _ | ⟨e0, l₂'⟩
    · rw [hl2] at he; cases he
    · rw [hl2] at he h1
      have hb0 : taskLtB ⟨q.taskIdCounter + 1, f, et, false⟩ e0 = true :=
        h4 e0 (by rw [hl2]; rfl)
      have hkey0 := (taskLtB_eq_true_iff _ _).1 hb0
      have h0t : et < e0.executeTime := by
        rcases hkey0 with hk | ⟨_, hid⟩
        · exact hk
        · exfalso
          have hmem : e0 ∈ q.tasks := by
            rw [h1]
            exact List.mem_append_right l₁ (List.mem_cons_self e0 l₂')
          have hle := hinv.2.1 e0 hmem
          have hid' : q.taskIdCounter + 1 < e0.id := hid
          omega
      rcases List.mem_cons.1 he with rfl | hm
      · exact h0t
      · have hp : (e0 :: l₂').Pairwise taskKeyLt := by
          have hq := hinv.1
          rw [h1] at hq
          exact (List.pairwise_append.1 hq).2.1
        have hke := (List.pairwise_cons.1 hp).1 e hm
        rcases hke with hk | ⟨hk, _⟩
        · exact lt_trans h0t hk
        · exact hk ▸ h0t

/-- Witness for C1 at concrete inputs: the fresh store, one machine step, and
one accepted enqueue. -/
theorem c1_ordering_invariant_witness :
    Inv (applyOp initialQueue (Op.enqueueOp (some 5) 3)) ∧
    ∃ l₁ l₂, initialQueue.tasks = l₁ ++ l₂ ∧
      (enqueue initialQueue (some 5) 3).state.tasks =
        l₁ ++ ⟨initialQueue.taskIdCounter + 1, some 5, 3, false⟩ :: l₂ ∧
      (∀ e ∈ l₁, e.executeTime ≤ 3) ∧ (∀ e ∈ l₂, 3 < e.executeTime) :=
  ⟨c1_ordering_invariant.2.1 initialQueue (Op.enqueueOp (some 5) 3)
      (by decide),
   c1_ordering_invariant.2.2 initialQueue (some 5) 3 (by decide) rfl⟩

/-- C2: `runNextTask(maxTime)` returns true exactly when it popped and
invoked a callable: on a disposed store it returns false with nothing at all
changed; whenever it returns false nothing was executed and no task was
removed (the failure reasons being exactly: empty sequence, running count at
the ceiling, barrier at the head, or head not ready before the deadline); and
when it returns true the executed callable is that of the ready non-barrier
head, which is removed from the sequence. -/
theorem c2_step_spec (q : TaskQueue) (now maxTime : Nat) :
    ((runNextTask q now maxTime).ran = true ↔
      q.disposed = false ∧ ∃ t rest, q.tasks = t :: rest ∧
        q.currentRunningTasks < q.maxConcurrentTasks ∧ t.isBarrier = false ∧
        (t.executeTime ≤ now ∨ t.executeTime < maxTime)) ∧
    (q.disposed = true →
      runNextTask q now maxTime = ⟨false, none, now, q, []⟩) ∧
    ((runNextTask q now maxTime).ran = false →
      (runNextTask q now maxTime).executed = none ∧
      (runNextTask q now maxTime).state.tasks = q.tasks ∧
      (runNextTask q now maxTime).state.currentRunningTasks =
        q.currentRunningTasks) ∧
    ((runNextTask q now maxTime).ran = true →
      ∃ t rest, q.tasks = t :: rest ∧
        runNextTask q now maxTime =
          ⟨true, some t.function, max now t.executeTime,
            { q with tasks := rest }, []⟩ ∧
        t.isBarrier = false ∧ t.executeTime ≤ max now t.executeTime) := by
  refine ⟨runNextTask_ran_iff q now maxTime,
    runNextTask_disposed q now maxTime, ?_, ?_⟩
  · intro hf
    rcases runNextTask_main q now maxTime with
      ⟨_, t, rest, _, _, _, _, heq⟩ | ⟨h1, h2, h3⟩
    · rw [heq] at hf; cases hf
    · refine ⟨h2, ?_⟩
      rcases h3 with h3 | h3
      · rw [h3]; exact ⟨rfl, rfl⟩
      · rw [h3]; exact ⟨rfl, rfl⟩
  · intro ht
    rcases runNextTask_main q now maxTime with
      ⟨hd, t, rest, hts, hc, hb, hr, heq⟩ | ⟨h1, _, _⟩
    · exact ⟨t, rest, hts, heq, hb, le_max_right _ _⟩
    · rw [h1] at ht; cases ht

/-- Witness for C2: a ready task is popped and run; a disposed store refuses. -/
theorem c2_step_spec_witness :
    (runNextTask ⟨false, 1, [⟨1, some 4, 0, false⟩], false, false, 0, 1,
        false⟩ 5 9).ran = true ∧
    runNextTask ⟨true, 0, [], true, true, 0, 1, false⟩ 5 9 =
      ⟨false, none, 5, ⟨true, 0, [], true, true, 0, 1, false⟩, []⟩ :=
  ⟨(c2_step_spec ⟨false, 1, [⟨1, some 4, 0, false⟩], false, false, 0, 1,
        false⟩ 5 9).1.mpr
      ⟨rfl, ⟨1, some 4, 0, false⟩, [], rfl, by decide, rfl,
        Or.inl (by decide)⟩,
   (c2_step_spec ⟨true, 0, [], true, true, 0, 1, false⟩ 5 9).2.1 rfl⟩

/-- C3 counterexample: the claim that `running ≤ ceiling` holds at all times
under every operation sequence is false.  First sequence: raise the ceiling to
2, enqueue two immediate tasks, acquire both (two callables mid-flight), then
lower the ceiling to 1 — the running count 2 now exceeds the ceiling 1.
Second sequence: set the ceiling to 0, insert a barrier and let its waiter
acquire — `barrier` checks only `running == 0` and head-ship, never the
ceiling, so the running count 1 exceeds the ceiling 0. -/
theorem c3_counterexample :
    ¬ ((applyOps initialQueue [Op.setMaxOp 2, Op.enqueueOp (some 1) 0,
          Op.enqueueOp (some 2) 0, Op.acquireOp 0 0, Op.acquireOp 0 0,
          Op.setMaxOp 1]).currentRunningTasks ≤
        (applyOps initialQueue [Op.setMaxOp 2, Op.enqueueOp (some 1) 0,
          Op.enqueueOp (some 2) 0, Op.acquireOp 0 0, Op.acquireOp 0 0,
          Op.setMaxOp 1]).maxConcurrentTasks) ∧
    ¬ ((applyOps initialQueue [Op.setMaxOp 0, Op.barrierInsertOp 0,
          Op.barrierAcquireOp 1]).currentRunningTasks ≤
        (applyOps initialQueue [Op.setMaxOp 0, Op.barrierInsertOp 0,
          Op.barrierAcquireOp 1]).maxConcurrentTasks) := by
  decide

/-- C3 amended: `running ≤ ceiling` (with a positive ceiling) holds for the
fresh store and is preserved by every operation, provided each
`setMaxConcurrentTasks(n)` satisfies `running ≤ n` and `1 ≤ n` at the time of
the call (and completions are paired with acquisitions); lowering the ceiling
below the current running count — or to zero before a barrier — violates
it. -/
theorem c3_amended_ceiling :
    CeilingInv initialQueue ∧
    ∀ (q : TaskQueue) (op : Op), CeilingInv q → opOK q op →
      CeilingInv (applyOp q op) :=
  ⟨by decide, ceilingInv_applyOp⟩

/-- Witness for C3 amended: a step under the ceiling. -/
theorem c3_amended_ceiling_witness :
    CeilingInv (applyOp ⟨false, 1, [⟨1, some 4, 0, false⟩], false, false, 0,
        1, false⟩ (Op.acquireOp 0 0)) :=
  c3_amended_ceiling.2 ⟨false, 1, [⟨1, some 4, 0, false⟩], false, false, 0,
      1, false⟩ (Op.acquireOp 0 0) (by decide) trivial

/-- C4: cancelling a pending id erases exactly the matching entry, and from
then on no reachable state contains a task with that id — so no subsequent
step can pop it, and any task a later step does run has a different id;
cancelling an absent id (unknown, running, or completed) leaves the state
exactly unchanged; and cancel is idempotent. -/
theorem c4_cancel_spec (q : TaskQueue) (tid : Nat) (hinv : Inv q) :
    ((∃ t ∈ q.tasks, t.id = tid) →
      (∃ l₁ t l₂, q.tasks = l₁ ++ t :: l₂ ∧ t.id = tid ∧
        (cancel q tid).tasks = l₁ ++ l₂) ∧
      (∀ (ops : List Op), ∀ t' ∈ (applyOps (cancel q tid) ops).tasks,
        t'.id ≠ tid) ∧
      (∀ (ops : List Op) (now maxTime : Nat),
        (runNextTask (applyOps (cancel q tid) ops) now maxTime).ran = true →
        ∃ t rest, (applyOps (cancel q tid) ops).tasks = t :: rest ∧
          (runNextTask (applyOps (cancel q tid) ops) now maxTime).executed =
            some t.function ∧ t.id ≠ tid)) ∧
    ((∀ t ∈ q.tasks, t.id ≠ tid) → cancel q tid = q) ∧
    cancel (cancel q tid) tid = cancel q tid := by
  have habs : ∀ t' ∈ (cancel q tid).tasks, t'.id ≠ tid :=
    removeTask_absent tid q.tasks hinv.2.2
  refine ⟨?_, cancel_absent q tid, cancel_absent (cancel q tid) tid habs⟩
  intro hp
  have hle : tid ≤ q.taskIdCounter := by
    obtain ⟨t, ht, hid⟩ := hp
    exact hid ▸ hinv.2.1 t ht
  refine ⟨?_, ?_, ?_⟩
  · obtain ⟨l₁, t, l₂, h1, h2, h3, _⟩ := removeTask_decomp tid q.tasks hp
    exact ⟨l₁, t, l₂, h1, h2, h3⟩
  · intro ops t' ht'
    exact applyOps_id_absent tid ops (cancel q tid) habs hle t' ht'
  · intro ops now maxTime hran
    rcases runNextTask_main (applyOps (cancel q tid) ops) now maxTime with
      ⟨hd, t, rest, hts, hc, hb, hr, heq⟩ | ⟨h1, _, _⟩
    · refine ⟨t, rest, hts, ?_, ?_⟩
      · rw [heq]
      · exact applyOps_id_absent tid ops (cancel q tid) habs hle t
          (by rw [hts]; exact List.mem_cons_self t rest)
    · rw [h1] at hran; cases hran

/-- Witness for C4: cancel the single pending task; its entry is erased, it
can never run again, repeating the cancel is a no-op, and cancelling an
absent id changes nothing. -/
theorem c4_cancel_spec_witness :
    (∃ l₁ t l₂,
      (⟨false, 1, [⟨1, some 9, 4, false⟩], false, false, 0, 1, false⟩ :
          TaskQueue).tasks = l₁ ++ t :: l₂ ∧ t.id = 1 ∧
      (cancel ⟨false, 1, [⟨1, some 9, 4, false⟩], false, false, 0, 1, false⟩
          1).tasks = l₁ ++ l₂) ∧
    cancel ⟨false, 1, [⟨1, some 9, 4, false⟩], false, false, 0, 1, false⟩ 3 =
      ⟨false, 1, [⟨1, some 9, 4, false⟩], false, false, 0, 1, false⟩ :=
  ⟨((c4_cancel_spec ⟨false, 1, [⟨1, some 9, 4, false⟩], false, false, 0, 1,
        false⟩ 1 (by decide)).1
      ⟨⟨1, some 9, 4, false⟩, by decide, rfl⟩).1,
   (c4_cancel_spec ⟨false, 1, [⟨1, some 9, 4, false⟩], false, false, 0, 1,
        false⟩ 3 (by decide)).2.1 (by decide)⟩

/-- C5: an enqueue on a disposed Task Queue returns id 0 with `isFirst`
false, fires no listener callback, and leaves the state — task sequence, id
counter, `first_` and `empty_` flags — exactly unchanged. -/
theorem c5_enqueue_disposed_rejects (q : TaskQueue) (f : DispatchFunction)
    (et : Nat) (hd : q.disposed = true) :
    enqueue q f et = ⟨⟨0, false⟩, q, []⟩ :=
  enqueue_disposed q f et hd

/-- Witness for C5 on a concrete disposed store. -/
theorem c5_enqueue_disposed_rejects_witness :
    enqueue ⟨true, 4, [], false, false, 0, 1, true⟩ (some 9) 2 =
      ⟨⟨0, false⟩, ⟨true, 4, [], false, false, 0, 1, true⟩, []⟩ :=
  c5_enqueue_disposed_rejects ⟨true, 4, [], false, false, 0, 1, true⟩
    (some 9) 2 rfl

/-- C6: cancel fires no listener callback ever; enqueue fires exactly
`onQueueNonEmpty`, precisely when the store is live, the empty flag set and a
listener registered, and clears the flag; the step path fires exactly
`onQueueEmpty`, precisely when the store is live, the sequence empty, the
flag clear and a listener registered, and sets the flag; and with a listener
kept throughout, the callback trace of any operation sequence from an
empty-flagged store (such as a fresh one) strictly alternates starting with
`onQueueNonEmpty`. -/
theorem c6_listener_edges :
    (∀ (q : TaskQueue) (tid : Nat), (applyOpE q (Op.cancelOp tid)).2 = []) ∧
    (∀ (q : TaskQueue) (f : DispatchFunction) (et : Nat),
      (enqueue q f et).events =
        if q.disposed = false ∧ q.empty = true ∧ q.listener = true
        then [QEvent.nonEmpty] else []) ∧
    (∀ (q : TaskQueue) (f : DispatchFunction) (et : Nat),
      q.disposed = false → (enqueue q f et).state.empty = false) ∧
    (∀ (q : TaskQueue) (now maxTime : Nat),
      (nextTask q now maxTime).events =
        if q.disposed = false ∧ q.tasks = [] ∧ q.empty = false ∧
            q.listener = true
        then [QEvent.qEmpty] else []) ∧
    (∀ (q : TaskQueue) (now maxTime : Nat),
      q.disposed = false → q.tasks = [] → q.empty = false →
      (nextTask q now maxTime).state.empty = true) ∧
    (∀ (q : TaskQueue) (ops : List Op), q.listener = true →
      (∀ op ∈ ops, keepsListener op = true) → q.empty = true →
      alternatesFrom true (traceOf q ops) = true) := by
  refine ⟨fun q tid => rfl, enqueue_events, ?_, nextTask_events, ?_, ?_⟩
  · intro q f et hd
    rw [enqueue_spec q f et hd]
  · intro q now maxTime hd hts he
    simp [nextTask, hd, hts, he]
  · intro q ops hl hk he
    have h := trace_alternates ops q hl hk
    rwa [he] at h

/-- Witness for C6: an enqueue clears the flag; a concrete trace — enqueue,
pop, empty-detect — alternates `nonEmpty`, `qEmpty`. -/
theorem c6_listener_edges_witness :
    (enqueue ⟨false, 0, [], true, true, 0, 1, true⟩ (some 1) 0).state.empty =
      false ∧
    alternatesFrom true (traceOf ⟨false, 0, [], true, true, 0, 1, true⟩
      [Op.enqueueOp (some 1) 0, Op.acquireOp 0 0, Op.acquireOp 0 0]) = true :=
  ⟨c6_listener_edges.2.2.1 ⟨false, 0, [], true, true, 0, 1, true⟩ (some 1) 0
      rfl,
   c6_listener_edges.2.2.2.2.2 ⟨false, 0, [], true, true, 0, 1, true⟩
      [Op.enqueueOp (some 1) 0, Op.acquireOp 0 0, Op.acquireOp 0 0] rfl
      (by decide) rfl⟩

/-- C7: the barrier wait-loop decision — run when nothing is running and the
inserted barrier is the head — never consults the disposed flag: flipping the
flag does not change whether the callable is invoked, and on a store that is
already disposed (so its sequence was cleared) with nothing running, the
waiter's barrier is the head and the callable is executed despite
disposal. -/
theorem c7_barrier_runs_on_disposal :
    (∀ (q : TaskQueue) (f : DispatchFunction) (now : Nat) (b : Bool),
      (barrier { q with disposed := b } f now).invoked =
        (barrier q f now).invoked) ∧
    (∀ (q : TaskQueue) (f : DispatchFunction) (now : Nat),
      q.disposed = true → q.currentRunningTasks = 0 → q.tasks = [] →
      (barrier q f now).invoked = some f) := by
  refine ⟨barrier_disposed_indep, ?_⟩
  intro q f now _ hr hts
  rw [barrier_ready q f now hr hts]

/-- Witness for C7: the callable runs on a concrete disposed store. -/
theorem c7_barrier_runs_on_disposal_witness :
    (barrier ⟨true, 0, [], true, true, 0, 1, false⟩ (some 7) 3).invoked =
      some (some 7) :=
  c7_barrier_runs_on_disposal.2 ⟨true, 0, [], true, true, 0, 1, false⟩
    (some 7) 3 rfl rfl rfl

/-- C8: `flush` repeatedly steps with the deadline equal to the clock at the
iteration, stops as soon as the step returns false, and returns exactly the
number of callables it invoked; in particular when only tasks with a strictly
future `ready_at` remain it executes nothing and returns 0. -/
theorem c8_flush_spec (q : TaskQueue) (now : Nat) :
    ((flush q now).1 = (flush q now).2.2.length) ∧
    ((runNextTask q now now).ran = false →
      flush q now = (0, (runNextTask q now now).state, [])) ∧
    ((runNextTask q now now).ran = true →
      flush q now =
        ((flush (runNextTask q now now).state now).1 + 1,
         (flush (runNextTask q now now).state now).2.1,
         ((runNextTask q now now).executed.getD none) ::
           (flush (runNextTask q now now).state now).2.2)) ∧
    ((∀ t ∈ q.tasks, now < t.executeTime) →
      (flush q now).1 = 0 ∧ (flush q now).2.2 = []) :=
  ⟨flush_count_eq_length q now, flush_false q now, flush_true q now,
    flush_future_only q now⟩

/-- Witness for C8: two future-only tasks are left untouched. -/
theorem c8_flush_spec_witness :
    (flush ⟨false, 2, [⟨1, some 3, 10, false⟩, ⟨2, some 4, 11, false⟩],
        false, false, 0, 1, false⟩ 5).1 = 0 ∧
    (flush ⟨false, 2, [⟨1, some 3, 10, false⟩, ⟨2, some 4, 11, false⟩],
        false, false, 0, 1, false⟩ 5).2.2 = [] :=
  (c8_flush_spec ⟨false, 2, [⟨1, some 3, 10, false⟩, ⟨2, some 4, 11, false⟩],
      false, false, 0, 1, false⟩ 5).2.2.2 (by decide)

/-- C9 counterexample: in no-caller-execution mode a throwing callable does
not get its exception captured and re-raised on the caller — the promise is
left unfulfilled (no exception stored, nothing re-raised), the caller is not
unblocked, and the exception escapes the worker-side task instead. -/
theorem c9_counterexample :
    (syncNoCallerTaskBody (Except.error ())).promise ≠
        PromiseState.hasException ∧
    callerUnblocked (syncNoCallerTaskBody (Except.error ())) = false ∧
    exceptionReRaisedOnCaller (syncNoCallerTaskBody (Except.error ())) =
        false ∧
    (syncNoCallerTaskBody (Except.error ())).escaped = some () := by
  decide

/-- C9 amended: in no-caller-execution mode a normally returning callable
fulfils the promise with a value and the caller unblocks; a throwing callable
aborts the posted lambda before `promise.set_value()`, so the promise stays
unfulfilled, the caller is never unblocked by this task, no exception is
re-raised on the caller — it escapes into the worker loop instead — and
`runningSync_` is left true. -/
theorem c9_sync_exception_escapes :
    (∀ e, syncNoCallerTaskBody (Except.error e) =
      ⟨PromiseState.unset, some e, true⟩) ∧
    (∀ u, syncNoCallerTaskBody (Except.ok u) =
      ⟨PromiseState.hasValue, none, false⟩) ∧
    (∀ e, callerUnblocked (syncNoCallerTaskBody (Except.error e)) = false) ∧
    (∀ u, callerUnblocked (syncNoCallerTaskBody (Except.ok u)) = true) ∧
    (∀ c, exceptionReRaisedOnCaller (syncNoCallerTaskBody c) = false) := by
  refine ⟨fun e => rfl, fun u => rfl, fun e => rfl, fun u => rfl, fun c => ?_⟩
  cases c <;> rfl

/-- C10: `TaskQueue::sync` delegates to `barrier`, and `barrier` never
consults the disposed flag: on an already-disposed store with nothing running
it still inserts a barrier task (the id counter advances and the returned id
is the fresh one), finds it at the head, invokes the caller's callable, and
removes the barrier again — whereas `enqueue` on the same store returns id 0
with `isFirst` false and changes nothing. -/
theorem c10_barrier_ignores_disposed (q : TaskQueue) (f : DispatchFunction)
    (now et : Nat) (hd : q.disposed = true) (hr : q.currentRunningTasks = 0)
    (hts : q.tasks = []) :
    TaskQueue.sync q f now = barrier q f now ∧
    barrier q f now =
      ⟨q.taskIdCounter + 1, some f,
        { q with taskIdCounter := q.taskIdCounter + 1 }⟩ ∧
    (enqueue q f et).enq = ⟨0, false⟩ ∧ (enqueue q f et).state = q ∧
    (enqueue q f et).events = [] := by
  refine ⟨rfl, barrier_ready q f now hr hts, ?_, ?_, ?_⟩ <;>
    rw [enqueue_disposed q f et hd]

/-- Witness for C10 on a concrete disposed store. -/
theorem c10_barrier_ignores_disposed_witness :
    barrier ⟨true, 5, [], false, false, 0, 1, false⟩ (some 2) 9 =
      ⟨6, some (some 2), ⟨true, 6, [], false, false, 0, 1, false⟩⟩ :=
  (c10_barrier_ignores_disposed ⟨true, 5, [], false, false, 0, 1, false⟩
      (some 2) 9 0 rfl rfl rfl).2.1

end Dispatcher
